import Mathlib

set_option maxRecDepth 40000

/-!
Shallow embedding of the DHT11 decode pipeline from `src/lib.rs` of the
`dht11_gpio` crate, together with theorems about the decoding algorithms.

The GPIO hardware itself (the `rppal` pin) is outside the decoding core: the
captured level sequence is passed to the pure pipeline as data.  Machine
integers (`usize`) are modelled as `ℕ`; the source never subtracts below zero
or overflows on the inputs the theorems quantify over, and where the source
relies on this (the `longest - shortest` subtraction) it is proved here.
`f64` readings are modelled as `ℚ`: the decoded bytes are below 256 and the
only operations are an exact addition and a division by 10.
-/

namespace DHT11

/-- Binary level of the signal line, `rppal::gpio::Level`. -/
inductive Level where
  | Low
  | High
  deriving DecidableEq, Inhabited, Repr

/-- `TIMEOUT_DURATION` from the source: milliseconds of line silence after
which `collect_input` stops sampling. -/
def TIMEOUT_DURATION : ℕ := 200

/-- The five states of the pulse segmenter's finite-state machine
(the local `enum State` inside `parse_data_pull_up_lengths`). -/
inductive State where
  | InitPullDown
  | InitPullUp
  | DataFirstPullDown
  | DataPullUp
  | DataPullDown
  deriving DecidableEq, Repr

/-- One iteration of the loop body of `parse_data_pull_up_lengths`:
increment `current_length`, then transition on the current level, pushing
the accumulated length on a `DataPullDown → DataPullUp` transition and
zeroing the counter on a `DataPullUp → DataPullDown` transition. -/
def parseStep : State × List ℕ × ℕ → Level → State × List ℕ × ℕ
  | (s, lengths, len0), current =>
    let current_length := len0 + 1
    match s with
    | State.InitPullDown =>
        (if current = Level.Low then State.InitPullUp else State.InitPullDown,
         lengths, current_length)
    | State.InitPullUp =>
        (if current = Level.High then State.DataFirstPullDown else State.InitPullUp,
         lengths, current_length)
    | State.DataFirstPullDown =>
        (if current = Level.Low then State.DataPullUp else State.DataFirstPullDown,
         lengths, current_length)
    | State.DataPullUp =>
        if current = Level.High then (State.DataPullDown, lengths, 0)
        else (State.DataPullUp, lengths, current_length)
    | State.DataPullDown =>
        if current = Level.Low then (State.DataPullUp, lengths ++ [current_length], current_length)
        else (State.DataPullDown, lengths, current_length)

/-- `parse_data_pull_up_lengths`: run the segmenter state machine over the
captured level sequence, returning the list of pull-up pulse lengths. -/
def parse_data_pull_up_lengths (data : List Level) : List ℕ :=
  (data.foldl parseStep (State.InitPullDown, [], 0)).2.1

/-- The min/max scan loop of `calculate_bits`: one pass updating
`shortest_pull_up` (initial sentinel 1000) and `longest_pull_up` (initial 0). -/
def minmax_scan (pull_up_lengths : List ℕ) : ℕ × ℕ :=
  pull_up_lengths.foldl
    (fun acc len =>
      (if len < acc.1 then len else acc.1,
       if len > acc.2 then len else acc.2))
    (1000, 0)

/-- `calculate_bits`: adaptive-threshold bit classification.  `halfway` is
`shortest + (longest - shortest) / 2`; a pulse is a 1-bit exactly when its
length is strictly greater than `halfway`. -/
def calculate_bits (pull_up_lengths : List ℕ) : List Bool :=
  let shortest_pull_up := (minmax_scan pull_up_lengths).1
  let longest_pull_up := (minmax_scan pull_up_lengths).2
  let halfway := shortest_pull_up + (longest_pull_up - shortest_pull_up) / 2
  pull_up_lengths.map (fun len => decide (len > halfway))

/-- The loop of `bits_to_bytes`: `i` is the enumeration index, `byte` the
accumulator (`byte = byte << 1 | bit`), flushed to `bytes` every 8th bit. -/
def bitsToBytesGo : List Bool → ℕ → ℕ → List ℕ → List ℕ
  | [], _, _, bytes => bytes
  | b :: rest, i, byte, bytes =>
    let byte2 := byte <<< 1 ||| (if b then 1 else 0)
    if (i + 1) % 8 = 0 then bitsToBytesGo rest (i + 1) 0 (bytes ++ [byte2])
    else bitsToBytesGo rest (i + 1) byte2 bytes

/-- `bits_to_bytes`: pack the bit sequence into bytes, 8 bits per byte. -/
def bits_to_bytes (bits : List Bool) : List ℕ :=
  bitsToBytesGo bits 0 0 []

/-- `calculate_checksum`: the source expression
`bytes[0] + bytes[1] + bytes[2] + bytes[3] & 255`; in both Rust and Lean,
`+` binds tighter than the bitwise AND. -/
def calculate_checksum (bytes : List ℕ) : ℕ :=
  bytes[0]! + bytes[1]! + bytes[2]! + bytes[3]! &&& 255

/-- `DHT11Result`: the validated reading (temperature °C, humidity %). -/
structure DHT11Result where
  temperature : ℚ
  humidity : ℚ
  deriving DecidableEq, Repr

/-- `DHT11Error`: the two decode-time error kinds. -/
inductive DHT11Error where
  | MissingData
  | InvalidChecksum
  deriving DecidableEq, Repr

/-- The pure decode pipeline after segmentation (the body of
`read_sensor_data` from the length check onward): length-40 precondition,
bit classification, byte packing, checksum validation, reading assembly. -/
def decodePullUpLengths (pull_up_lengths : List ℕ) : Except DHT11Error DHT11Result :=
  if pull_up_lengths.length ≠ 40 then
    Except.error DHT11Error.MissingData
  else
    let bits := calculate_bits pull_up_lengths
    let bytes := bits_to_bytes bits
    let checksum := calculate_checksum bytes
    if bytes[4]! ≠ checksum then
      Except.error DHT11Error.InvalidChecksum
    else
      let humidity : ℚ := (bytes[0]! : ℚ) + (bytes[1]! : ℚ) / 10
      let temperature : ℚ := (bytes[2]! : ℚ) + (bytes[3]! : ℚ) / 10
      Except.ok { temperature := temperature, humidity := humidity }

/-- `read_sensor_data` on a captured level sequence: the start-signal drive
and the capture itself talk to the pin; from the captured data on, the
function is the segmenter followed by the decode pipeline. -/
def read_sensor_data (data : List Level) : Except DHT11Error DHT11Result :=
  decodePullUpLengths (parse_data_pull_up_lengths data)

/-- `collect_input` on a timed sample trace.  Each trace entry is the level
read in one loop iteration paired with that iteration's clock value in
milliseconds since entry (the value `Instant::now()` would report there);
`start` is the millisecond value held by `start_time` and `last` the last
level.  Returns the collected levels with the exit-iteration clock value,
or `none` when the trace is exhausted before the timeout fires (the real
loop would keep polling the pin). -/
def collect_input : List (Level × ℕ) → ℕ → Level → Option (List Level × ℕ)
  | [], _, _ => none
  | (current, t) :: rest, start, last =>
    let start2 := if last ≠ current then t else start
    if t - start2 > TIMEOUT_DURATION then some ([current], t)
    else
      match collect_input rest start2 current with
      | some (ds, te) => some (current :: ds, te)
      | none => none

/-- The value of `start_time` in effect at each iteration's timeout check of
`collect_input`, for the same timed trace. -/
def start_times : List (Level × ℕ) → ℕ → Level → List ℕ
  | [], _, _ => []
  | (current, t) :: rest, start, last =>
    let start2 := if last ≠ current then t else start
    start2 :: start_times rest start2 current

/-- Value of a bit list read most-significant-bit first (the claim-side
description of the packing order). -/
def msbVal (bits : List Bool) : ℕ :=
  bits.foldl (fun acc b => 2 * acc + (if b then 1 else 0)) 0

theorem foldr_min_swap (xs : List ℕ) (a x : ℕ) :
    xs.foldr min (min x a) = min x (xs.foldr min a) := by
  induction xs generalizing a with
  | nil => simp
  | cons y ys ih => simp only [List.foldr_cons, ih]; omega

theorem foldr_max_swap (xs : List ℕ) (a x : ℕ) :
    xs.foldr max (max x a) = max x (xs.foldr max a) := by
  induction xs generalizing a with
  | nil => simp
  | cons y ys ih => simp only [List.foldr_cons, ih]; omega

theorem minmax_scan_foldl (xs : List ℕ) (p : ℕ × ℕ) :
    xs.foldl (fun acc len =>
      (if len < acc.1 then len else acc.1,
       if len > acc.2 then len else acc.2)) p
    = (xs.foldr min p.1, xs.foldr max p.2) := by
  induction xs generalizing p with
  | nil => simp
  | cons y ys ih =>
      rw [List.foldl_cons, ih]
      simp only [List.foldr_cons, Prod.mk.injEq]
      constructor
      · rw [show (if y < p.1 then y else p.1) = min y p.1 by split <;> omega, foldr_min_swap]
      · rw [show (if y > p.2 then y else p.2) = max y p.2 by split <;> omega, foldr_max_swap]

theorem minmax_scan_fst (xs : List ℕ) : (minmax_scan xs).1 = xs.foldr min 1000 := by
  rw [minmax_scan, minmax_scan_foldl]

theorem minmax_scan_snd (xs : List ℕ) : (minmax_scan xs).2 = xs.foldr max 0 := by
  rw [minmax_scan, minmax_scan_foldl]

theorem foldr_min_le_mem (xs : List ℕ) (a x : ℕ) (h : x ∈ xs) : xs.foldr min a ≤ x := by
  induction xs with
  | nil => cases h
  | cons y ys ih =>
      rcases List.mem_cons.mp h with rfl | h2
      · simp only [List.foldr_cons]; omega
      · have := ih h2; simp only [List.foldr_cons]; omega

theorem le_foldr_min (xs : List ℕ) (a m : ℕ) (hall : ∀ x ∈ xs, m ≤ x) (ha : m ≤ a) :
    m ≤ xs.foldr min a := by
  induction xs with
  | nil => simpa
  | cons y ys ih =>
      have hy := hall y (List.mem_cons_self y ys)
      have := ih (fun x hx => hall x (List.mem_cons_of_mem y hx))
      simp only [List.foldr_cons]; omega

theorem mem_le_foldr_max (xs : List ℕ) (a x : ℕ) (h : x ∈ xs) : x ≤ xs.foldr max a := by
  induction xs with
  | nil => cases h
  | cons y ys ih =>
      rcases List.mem_cons.mp h with rfl | h2
      · simp only [List.foldr_cons]; omega
      · have := ih h2; simp only [List.foldr_cons]; omega

theorem foldr_max_le (xs : List ℕ) (a M : ℕ) (hall : ∀ x ∈ xs, x ≤ M) (ha : a ≤ M) :
    xs.foldr max a ≤ M := by
  induction xs with
  | nil => simpa
  | cons y ys ih =>
      have hy := hall y (List.mem_cons_self y ys)
      have := ih (fun x hx => hall x (List.mem_cons_of_mem y hx))
      simp only [List.foldr_cons]; omega

theorem foldr_min_eq_of_mem (xs : List ℕ) (a m : ℕ) (hm : m ∈ xs)
    (hall : ∀ x ∈ xs, m ≤ x) (ha : m ≤ a) : xs.foldr min a = m :=
  le_antisymm (foldr_min_le_mem xs a m hm) (le_foldr_min xs a m hall ha)

theorem foldr_max_eq_of_mem (xs : List ℕ) (M : ℕ) (hM : M ∈ xs)
    (hall : ∀ x ∈ xs, x ≤ M) : xs.foldr max 0 = M :=
  le_antisymm (foldr_max_le xs 0 M hall (Nat.zero_le M)) (mem_le_foldr_max xs 0 M hM)

theorem shift_or_bit (a : ℕ) (b : Bool) :
    a <<< 1 ||| (if b then 1 else 0) = 2 * a + (if b then 1 else 0) := by
  have hsh : a <<< 1 = 2 * a := by rw [Nat.shiftLeft_eq]; ring
  cases b
  · simp [hsh]
  · simp only [if_pos rfl, hsh]
    have h := Nat.lor_bit false a true 0
    simp [Nat.bit] at h
    simpa using h

theorem go_chunk_step (l rest : List Bool) (hl : l.length = 8) (k : ℕ) (bytes : List ℕ) :
    bitsToBytesGo (l ++ rest) (8 * k) 0 bytes
      = bitsToBytesGo rest (8 * k + 8) 0 (bytes ++ [msbVal l]) := by
  rcases l with _ | ⟨b0, l⟩; · simp at hl
  rcases l with _ | ⟨b1, l⟩; · simp at hl
  rcases l with _ | ⟨b2, l⟩; · simp at hl
  rcases l with _ | ⟨b3, l⟩; · simp at hl
  rcases l with _ | ⟨b4, l⟩; · simp at hl
  rcases l with _ | ⟨b5, l⟩; · simp at hl
  rcases l with _ | ⟨b6, l⟩; · simp at hl
  rcases l with _ | ⟨b7, l⟩; · simp at hl
  rcases l with _ | ⟨b8, l⟩
  · simp only [List.cons_append, List.nil_append, bitsToBytesGo, shift_or_bit,
      Nat.add_assoc, Nat.mul_add_mod, msbVal, List.foldl]
    norm_num
  · simp at hl

theorem bits_to_bytes_forty (bits : List Bool) (h : bits.length = 40) :
    bits_to_bytes bits =
      [msbVal (bits.take 8), msbVal ((bits.drop 8).take 8), msbVal ((bits.drop 16).take 8),
       msbVal ((bits.drop 24).take 8), msbVal ((bits.drop 32).take 8)] := by
  calc bits_to_bytes bits
      = bitsToBytesGo (bits.take 8 ++ bits.drop 8) (8 * 0) 0 [] := by
        rw [List.take_append_drop]; rfl
    _ = bitsToBytesGo (bits.drop 8) (8 * 0 + 8) 0 ([] ++ [msbVal (bits.take 8)]) :=
        go_chunk_step _ _ (by simp [List.length_take, h]) 0 []
    _ = bitsToBytesGo ((bits.drop 8).take 8 ++ bits.drop 16) (8 * 1) 0
          [msbVal (bits.take 8)] := by
        conv_lhs => rw [← List.take_append_drop 8 (bits.drop 8)]
        rw [List.drop_drop]
        norm_num
    _ = bitsToBytesGo (bits.drop 16) (8 * 1 + 8) 0
          ([msbVal (bits.take 8)] ++ [msbVal ((bits.drop 8).take 8)]) :=
        go_chunk_step _ _ (by simp [List.length_take, List.length_drop, h]) 1 _
    _ = bitsToBytesGo ((bits.drop 16).take 8 ++ bits.drop 24) (8 * 2) 0
          [msbVal (bits.take 8), msbVal ((bits.drop 8).take 8)] := by
        conv_lhs => rw [← List.take_append_drop 8 (bits.drop 16)]
        rw [List.drop_drop]
        norm_num
    _ = bitsToBytesGo (bits.drop 24) (8 * 2 + 8) 0
          ([msbVal (bits.take 8), msbVal ((bits.drop 8).take 8)]
            ++ [msbVal ((bits.drop 16).take 8)]) :=
        go_chunk_step _ _ (by simp [List.length_take, List.length_drop, h]) 2 _
    _ = bitsToBytesGo ((bits.drop 24).take 8 ++ bits.drop 32) (8 * 3) 0
          [msbVal (bits.take 8), msbVal ((bits.drop 8).take 8),
           msbVal ((bits.drop 16).take 8)] := by
        conv_lhs => rw [← List.take_append_drop 8 (bits.drop 24)]
        rw [List.drop_drop]
        norm_num
    _ = bitsToBytesGo (bits.drop 32) (8 * 3 + 8) 0
          ([msbVal (bits.take 8), msbVal ((bits.drop 8).take 8),
            msbVal ((bits.drop 16).take 8)] ++ [msbVal ((bits.drop 24).take 8)]) :=
        go_chunk_step _ _ (by simp [List.length_take, List.length_drop, h]) 3 _
    _ = bitsToBytesGo ((bits.drop 32).take 8 ++ bits.drop 40) (8 * 4) 0
          [msbVal (bits.take 8), msbVal ((bits.drop 8).take 8),
           msbVal ((bits.drop 16).take 8), msbVal ((bits.drop 24).take 8)] := by
        conv_lhs => rw [← List.take_append_drop 8 (bits.drop 32)]
        rw [List.drop_drop]
        norm_num
    _ = bitsToBytesGo (bits.drop 40) (8 * 4 + 8) 0
          ([msbVal (bits.take 8), msbVal ((bits.drop 8).take 8),
            msbVal ((bits.drop 16).take 8), msbVal ((bits.drop 24).take 8)]
            ++ [msbVal ((bits.drop 32).take 8)]) :=
        go_chunk_step _ _ (by simp [List.length_take, List.length_drop, h]) 4 _
    _ = [msbVal (bits.take 8), msbVal ((bits.drop 8).take 8), msbVal ((bits.drop 16).take 8),
         msbVal ((bits.drop 24).take 8), msbVal ((bits.drop 32).take 8)] := by
        rw [List.drop_eq_nil_of_le (by omega)]
        rfl

theorem calculate_bits_eq_of_minmax (l : List ℕ) (m M : ℕ)
    (hm : m ∈ l) (hmle : ∀ x ∈ l, m ≤ x)
    (hM : M ∈ l) (hMle : ∀ x ∈ l, x ≤ M)
    (hm1000 : m ≤ 1000) :
    calculate_bits l = l.map (fun len => decide (len > m + (M - m) / 2)) := by
  unfold calculate_bits
  rw [minmax_scan_fst, minmax_scan_snd,
      foldr_min_eq_of_mem l 1000 m hm hmle hm1000,
      foldr_max_eq_of_mem l M hM hMle]

theorem calculate_bits_two_valued (l : List ℕ) (s g : ℕ)
    (hsg : s < g) (hmem : ∀ x ∈ l, x = s ∨ x = g)
    (hs : s ∈ l) (hg : g ∈ l) (hs1000 : s ≤ 1000) :
    calculate_bits l = l.map (fun len => decide (len = g)) := by
  have hmle : ∀ x ∈ l, s ≤ x := fun x hx => by rcases hmem x hx with rfl | rfl <;> omega
  have hMle : ∀ x ∈ l, x ≤ g := fun x hx => by rcases hmem x hx with rfl | rfl <;> omega
  rw [calculate_bits_eq_of_minmax l s g hs hmle hg hMle hs1000]
  apply List.map_congr_left
  intro x hx
  rcases hmem x hx with rfl | rfl <;> (rw [decide_eq_decide]; omega)

theorem collect_input_spec (samples : List (Level × ℕ)) :
    ∀ (start : ℕ) (last : Level) (ds : List Level) (te : ℕ),
      collect_input samples start last = some (ds, te) →
      ∃ k, k < samples.length ∧
        ds = (samples.take (k + 1)).map Prod.fst ∧
        te = (samples[k]!).2 ∧
        TIMEOUT_DURATION < (samples[k]!).2 - (start_times samples start last)[k]! ∧
        ∀ j, j < k → (samples[j]!).2 - (start_times samples start last)[j]! ≤ TIMEOUT_DURATION := by
  induction samples with
  | nil =>
      intro start last ds te h
      simp [collect_input] at h
  | cons p rest ih =>
      obtain ⟨current, t⟩ := p
      intro start last ds te h
      simp only [collect_input] at h
      have hst : start_times ((current, t) :: rest) start last
          = (if last ≠ current then t else start)
            :: start_times rest (if last ≠ current then t else start) current := by
        simp only [start_times]
      rw [hst]
      set s2 := if last ≠ current then t else start with hs2
      split at h
      case isTrue hto =>
        rw [Option.some.injEq, Prod.mk.injEq] at h
        obtain ⟨rfl, rfl⟩ := h
        refine ⟨0, by simp, by simp, by simp, ?_, by omega⟩
        simpa using hto
      case isFalse hto =>
        split at h
        case h_1 ds' te' heq =>
          rw [Option.some.injEq, Prod.mk.injEq] at h
          obtain ⟨rfl, rfl⟩ := h
          obtain ⟨k, hk, hds, hte, hcond, hprev⟩ := ih _ _ _ _ heq
          refine ⟨k + 1, by simpa using Nat.succ_lt_succ hk, ?_, ?_, ?_, ?_⟩
          · simp [hds]
          · simpa using hte
          · simpa using hcond
          · intro j hj
            cases j with
            | zero =>
                simp only [List.getElem!_cons_zero]
                simp
                omega
            | succ j2 =>
                have := hprev j2 (by omega)
                simpa using this
        case h_2 heq =>
          exact absurd h (by simp)

theorem and255_eq_mod (n : ℕ) : n &&& 255 = n % 256 := by
  have h := Nat.and_pow_two_sub_one_eq_mod n 8
  norm_num at h
  exact h

theorem xor_two_pow_ne (a p : ℕ) : a ^^^ 2 ^ p ≠ a := by
  intro hEq
  have h2 : a ^^^ (a ^^^ 2 ^ p) = a ^^^ a := by rw [hEq]
  rw [← Nat.xor_assoc, Nat.xor_self, Nat.zero_xor] at h2
  exact (Nat.two_pow_pos p).ne' h2

theorem xor_lt_256 (a b : ℕ) (ha : a < 256) (hb : b < 256) : a ^^^ b < 256 := by
  have ha2 : a < 2 ^ 8 := by simpa using ha
  have hb2 : b < 2 ^ 8 := by simpa using hb
  simpa using Nat.xor_lt_two_pow ha2 hb2

/-- C1: for every captured level sequence for which the pulse segmenter
(`parse_data_pull_up_lengths`) produces a pulse-duration list whose length is
not exactly 40, the decode pipeline returns the `MissingData` error and never
a reading; the classification, packing and checksum steps are all behind the
early return. -/
theorem missing_data_when_not_forty (data : List Level)
    (h : (parse_data_pull_up_lengths data).length ≠ 40) :
    read_sensor_data data = Except.error DHT11Error.MissingData := by
  rw [read_sensor_data, decodePullUpLengths, if_pos h]

theorem missing_data_when_not_forty_inst :
    read_sensor_data [] = Except.error DHT11Error.MissingData :=
  missing_data_when_not_forty [] (by decide)

/-- C3: for every byte list with at least four entries each at most 255,
`calculate_checksum` returns the four-way sum reduced mod 256: the source
expression `bytes[0] + bytes[1] + bytes[2] + bytes[3] & 255` groups as the
full sum masked by 255, because `+` binds tighter than the bitwise AND. -/
theorem checksum_is_masked_sum (bytes : List ℕ) (h4 : 4 ≤ bytes.length)
    (hb : ∀ x ∈ bytes, x ≤ 255) :
    calculate_checksum bytes = (bytes[0]! + bytes[1]! + bytes[2]! + bytes[3]!) % 256 := by
  rw [calculate_checksum, and255_eq_mod]

theorem checksum_is_masked_sum_inst :
    calculate_checksum [1, 2, 3, 250] = (1 + 2 + 3 + 250) % 256 :=
  checksum_is_masked_sum [1, 2, 3, 250] (by decide) (by decide)

/-- C6: `bits_to_bytes` packs most-significant-bit first, 8 bits per byte:
every 40-bit input yields exactly 5 bytes, byte `j` being the value of bits
`8j..8j+7` read MSB-first.  In particular the sequence starting
`[1,0,1,0,1,0,1,0, 0,0,1,1,0,0,1,1, ...]` packs to bytes starting
`[0xAA, 0x33, ...]` (see the witness below). -/
theorem bits_to_bytes_msb_first (bits : List Bool) (h : bits.length = 40) :
    bits_to_bytes bits =
      [msbVal (bits.take 8), msbVal ((bits.drop 8).take 8), msbVal ((bits.drop 16).take 8),
       msbVal ((bits.drop 24).take 8), msbVal ((bits.drop 32).take 8)] :=
  bits_to_bytes_forty bits h

theorem bits_to_bytes_msb_first_inst :
    bits_to_bytes ([true, false, true, false, true, false, true, false,
                    false, false, true, true, false, false, true, true]
                    ++ List.replicate 24 false)
      = [170, 51, 0, 0, 0] :=
  (bits_to_bytes_msb_first _ (by decide)).trans (by decide)

/-- C4 counterexample: the claim says `shortest` is the minimum of the list.
On `[2000]` minimum and maximum are both 2000, so the claimed halfway is
`2000 + (2000 - 2000) / 2 = 2000` and the bit `decide (2000 > 2000) = false`;
the code's sentinel initialisation (`shortest = 1000`) gives halfway 1500 and
the bit `true`. -/
theorem bit_classifier_sentinel_cex :
    calculate_bits [2000] = [true] ∧
    ([2000] : List ℕ).map (fun len => decide (len > 2000 + (2000 - 2000) / 2)) = [false] := by
  decide

/-- C4 (amended): for every non-empty pulse-duration list whose minimum `m`
is at most the 1000 sentinel, `calculate_bits` uses the minimum `m` and the
maximum `M` of the list, sets `halfway = m + (M - m) / 2` with floor
division, and classifies position `i` as `true` exactly when the i-th
duration is strictly greater than `halfway`, one bit per entry in order. -/
theorem bit_classifier_minmax (l : List ℕ) (m M : ℕ) (hne : l ≠ [])
    (hm : m ∈ l) (hmle : ∀ x ∈ l, m ≤ x)
    (hM : M ∈ l) (hMle : ∀ x ∈ l, x ≤ M)
    (hm1000 : m ≤ 1000) :
    calculate_bits l = l.map (fun len => decide (len > m + (M - m) / 2)) :=
  calculate_bits_eq_of_minmax l m M hm hmle hM hMle hm1000

theorem bit_classifier_minmax_inst :
    calculate_bits [10, 28]
      = ([10, 28] : List ℕ).map (fun len => decide (len > 10 + (28 - 10) / 2)) :=
  bit_classifier_minmax [10, 28] 10 28 (by decide) (by decide) (by decide)
    (by decide) (by decide) (by decide)

/-- C5 counterexample: a 40-entry list alternating between cluster values 12
and 13 classifies as alternating bits, but scaled by the factor 100 the
values 1200/1300 exceed the 1000 sentinel, `shortest` stays 1000, halfway
becomes 1150 and every entry classifies as `true`: the bit pattern is not
scale invariant. -/
theorem scale_invariance_cex :
    calculate_bits (((List.range 40).map (fun i => if i % 2 = 0 then 12 else 13)).map
        (fun len => 100 * len))
      ≠ calculate_bits ((List.range 40).map (fun i => if i % 2 = 0 then 12 else 13)) := by
  decide

/-- C5 (amended): for every list of exactly 40 durations drawn from a
two-value set with `short < long`, both values present, and every positive
scale factor `k` such that the scaled short value stays at most the 1000
sentinel, `calculate_bits` assigns `false` to every short entry and `true`
to every long entry, and the bit pattern of the list scaled elementwise by
`k` equals the bit pattern of the unscaled list. -/
theorem two_cluster_classification (l : List ℕ) (s g k : ℕ)
    (hlen : l.length = 40) (hsg : s < g) (hmem : ∀ x ∈ l, x = s ∨ x = g)
    (hs : s ∈ l) (hg : g ∈ l) (hk : 1 ≤ k) (hks : k * s ≤ 1000) :
    calculate_bits l = l.map (fun len => decide (len = g)) ∧
    calculate_bits (l.map (fun len => k * len)) = calculate_bits l := by
  have hs1000 : s ≤ 1000 := by
    have hle : s ≤ k * s := Nat.le_mul_of_pos_left s (by omega)
    omega
  have h1 := calculate_bits_two_valued l s g hsg hmem hs hg hs1000
  refine ⟨h1, ?_⟩
  have hk0 : 0 < k := by omega
  have hksg : k * s < k * g := mul_lt_mul_of_pos_left hsg hk0
  have hmem2 : ∀ x ∈ l.map (fun len => k * len), x = k * s ∨ x = k * g := by
    intro x hx
    obtain ⟨y, hy, rfl⟩ := List.mem_map.mp hx
    rcases hmem y hy with rfl | rfl
    · exact Or.inl rfl
    · exact Or.inr rfl
  have hs2 : k * s ∈ l.map (fun len => k * len) := List.mem_map.mpr ⟨s, hs, rfl⟩
  have hg2 : k * g ∈ l.map (fun len => k * len) := List.mem_map.mpr ⟨g, hg, rfl⟩
  have h2 := calculate_bits_two_valued _ (k * s) (k * g) hksg hmem2 hs2 hg2 hks
  rw [h2, h1, List.map_map]
  apply List.map_congr_left
  intro x hx
  simp only [Function.comp]
  rw [decide_eq_decide]
  constructor
  · intro hkx
    exact Nat.eq_of_mul_eq_mul_left hk0 hkx
  · intro hxg
    rw [hxg]

theorem two_cluster_classification_inst :
    calculate_bits ((List.range 40).map (fun i => if i % 2 = 0 then 10 else 28))
      = ((List.range 40).map (fun i => if i % 2 = 0 then 10 else 28)).map
          (fun len => decide (len = 28)) ∧
    calculate_bits (((List.range 40).map (fun i => if i % 2 = 0 then 10 else 28)).map
        (fun len => 3 * len))
      = calculate_bits ((List.range 40).map (fun i => if i % 2 = 0 then 10 else 28)) :=
  two_cluster_classification _ 10 28 3 (by decide) (by decide) (by decide)
    (by decide) (by decide) (by decide) (by decide)

/-- C10: panic freedom of the decode path.  After the min/max scan of
`calculate_bits` on a non-empty list the longest value is at least the
shortest (even when every duration exceeds the 1000 sentinel), so
`longest - shortest` cannot underflow; and a 40-bit input packs to exactly
5 bytes, so the accesses `bytes[0]..bytes[3]` in `calculate_checksum` and
`bytes[4]` in `read_sensor_data` are in bounds. -/
theorem decode_path_safety (pull_up_lengths : List ℕ) (hne : pull_up_lengths ≠ [])
    (bits : List Bool) (hbits : bits.length = 40) :
    (minmax_scan pull_up_lengths).1 ≤ (minmax_scan pull_up_lengths).2 ∧
    (bits_to_bytes bits).length = 5 := by
  constructor
  · rcases pull_up_lengths with _ | ⟨x, xs⟩
    · exact absurd rfl hne
    · rw [minmax_scan_fst, minmax_scan_snd]
      have h1 := foldr_min_le_mem (x :: xs) 1000 x (by simp)
      have h2 := mem_le_foldr_max (x :: xs) 0 x (by simp)
      omega
  · rw [bits_to_bytes_forty bits hbits]
    simp

theorem decode_path_safety_inst :
    (minmax_scan [2000]).1 ≤ (minmax_scan [2000]).2 ∧
    (bits_to_bytes (List.replicate 40 true)).length = 5 :=
  decode_path_safety [2000] (by decide) (List.replicate 40 true) (by decide)

/-- C2: checksum round-trip.  A 5-byte frame whose fifth byte is the masked
sum of the first four passes the validation check, and flipping any single
bit (position `j < 8`) of any one of the first four bytes (index `i < 4`),
leaving the fifth byte unchanged, makes the validation check fail. -/
theorem checksum_roundtrip (b0 b1 b2 b3 : ℕ)
    (h0 : b0 ≤ 255) (h1 : b1 ≤ 255) (h2 : b2 ≤ 255) (h3 : b3 ≤ 255)
    (i j : ℕ) (hi : i < 4) (hj : j < 8) :
    calculate_checksum [b0, b1, b2, b3, (b0 + b1 + b2 + b3) &&& 255]
      = [b0, b1, b2, b3, (b0 + b1 + b2 + b3) &&& 255][4]! ∧
    calculate_checksum
        (([b0, b1, b2, b3, (b0 + b1 + b2 + b3) &&& 255].set i
          ([b0, b1, b2, b3, (b0 + b1 + b2 + b3) &&& 255][i]! ^^^ 2 ^ j)))
      ≠ ([b0, b1, b2, b3, (b0 + b1 + b2 + b3) &&& 255].set i
          ([b0, b1, b2, b3, (b0 + b1 + b2 + b3) &&& 255][i]! ^^^ 2 ^ j))[4]! := by
  have hp : (2 : ℕ) ^ j < 256 := by
    calc (2 : ℕ) ^ j < 2 ^ 8 := Nat.pow_lt_pow_right (by norm_num) hj
    _ = 256 := by norm_num
  constructor
  · simp [calculate_checksum]
  · interval_cases i
    · have hxne := xor_two_pow_ne b0 j
      have hxlt := xor_lt_256 b0 (2 ^ j) (by omega) hp
      simp only [List.getElem!_cons_zero, List.getElem!_cons_succ, List.set,
        calculate_checksum, and255_eq_mod]
      omega
    · have hxne := xor_two_pow_ne b1 j
      have hxlt := xor_lt_256 b1 (2 ^ j) (by omega) hp
      simp only [List.getElem!_cons_zero, List.getElem!_cons_succ, List.set,
        calculate_checksum, and255_eq_mod]
      omega
    · have hxne := xor_two_pow_ne b2 j
      have hxlt := xor_lt_256 b2 (2 ^ j) (by omega) hp
      simp only [List.getElem!_cons_zero, List.getElem!_cons_succ, List.set,
        calculate_checksum, and255_eq_mod]
      omega
    · have hxne := xor_two_pow_ne b3 j
      have hxlt := xor_lt_256 b3 (2 ^ j) (by omega) hp
      simp only [List.getElem!_cons_zero, List.getElem!_cons_succ, List.set,
        calculate_checksum, and255_eq_mod]
      omega

theorem checksum_roundtrip_inst :
    calculate_checksum [1, 2, 3, 4, (1 + 2 + 3 + 4) &&& 255]
      = [1, 2, 3, 4, (1 + 2 + 3 + 4) &&& 255][4]! ∧
    calculate_checksum
        (([1, 2, 3, 4, (1 + 2 + 3 + 4) &&& 255].set 0
          (([1, 2, 3, 4, (1 + 2 + 3 + 4) &&& 255] : List ℕ)[0]! ^^^ 2 ^ 5)))
      ≠ ([1, 2, 3, 4, (1 + 2 + 3 + 4) &&& 255].set 0
          (([1, 2, 3, 4, (1 + 2 + 3 + 4) &&& 255] : List ℕ)[0]! ^^^ 2 ^ 5))[4]! :=
  checksum_roundtrip 1 2 3 4 (by decide) (by decide) (by decide) (by decide)
    0 5 (by decide) (by decide)

/-- C7: whenever the length check and the checksum validation succeed, the
returned reading has `humidity = bytes[0] + bytes[1]/10` and
`temperature = bytes[2] + bytes[3]/10` (the `f64` arithmetic of the source
modelled exactly over `ℚ`). -/
theorem reading_from_bytes (pull_up_lengths : List ℕ)
    (hlen : pull_up_lengths.length = 40)
    (hck : (bits_to_bytes (calculate_bits pull_up_lengths))[4]!
           = calculate_checksum (bits_to_bytes (calculate_bits pull_up_lengths))) :
    decodePullUpLengths pull_up_lengths =
      Except.ok
        { temperature :=
            ((bits_to_bytes (calculate_bits pull_up_lengths))[2]! : ℚ)
              + ((bits_to_bytes (calculate_bits pull_up_lengths))[3]! : ℚ) / 10,
          humidity :=
            ((bits_to_bytes (calculate_bits pull_up_lengths))[0]! : ℚ)
              + ((bits_to_bytes (calculate_bits pull_up_lengths))[1]! : ℚ) / 10 } := by
  simp [decodePullUpLengths, hlen, hck]

/-- C7 witness: the pulse-duration list encoding the frame `[60, 0, 25, 5, 90]`
(checksum 60+0+25+5 = 90) decodes to humidity 60.0 and temperature 25.5. -/
theorem reading_from_bytes_inst :
    decodePullUpLengths
        [10, 10, 28, 28, 28, 28, 10, 10,  10, 10, 10, 10, 10, 10, 10, 10,
         10, 10, 10, 28, 28, 10, 10, 28,  10, 10, 10, 10, 10, 28, 10, 28,
         10, 28, 10, 28, 28, 10, 28, 10]
      = Except.ok { temperature := 25.5, humidity := 60 } := by
  have h := reading_from_bytes
    [10, 10, 28, 28, 28, 28, 10, 10,  10, 10, 10, 10, 10, 10, 10, 10,
     10, 10, 10, 28, 28, 10, 10, 28,  10, 10, 10, 10, 10, 28, 10, 28,
     10, 28, 10, 28, 28, 10, 28, 10] (by decide) (by decide)
  have e0 : (bits_to_bytes (calculate_bits
      [10, 10, 28, 28, 28, 28, 10, 10,  10, 10, 10, 10, 10, 10, 10, 10,
       10, 10, 10, 28, 28, 10, 10, 28,  10, 10, 10, 10, 10, 28, 10, 28,
       10, 28, 10, 28, 28, 10, 28, 10]))[0]! = 60 := by decide
  have e1 : (bits_to_bytes (calculate_bits
      [10, 10, 28, 28, 28, 28, 10, 10,  10, 10, 10, 10, 10, 10, 10, 10,
       10, 10, 10, 28, 28, 10, 10, 28,  10, 10, 10, 10, 10, 28, 10, 28,
       10, 28, 10, 28, 28, 10, 28, 10]))[1]! = 0 := by decide
  have e2 : (bits_to_bytes (calculate_bits
      [10, 10, 28, 28, 28, 28, 10, 10,  10, 10, 10, 10, 10, 10, 10, 10,
       10, 10, 10, 28, 28, 10, 10, 28,  10, 10, 10, 10, 10, 28, 10, 28,
       10, 28, 10, 28, 28, 10, 28, 10]))[2]! = 25 := by decide
  have e3 : (bits_to_bytes (calculate_bits
      [10, 10, 28, 28, 28, 28, 10, 10,  10, 10, 10, 10, 10, 10, 10, 10,
       10, 10, 10, 28, 28, 10, 10, 28,  10, 10, 10, 10, 10, 28, 10, 28,
       10, 28, 10, 28, 28, 10, 28, 10]))[3]! = 5 := by decide
  rw [h, e0, e1, e2, e3]
  norm_num [DHT11Result.mk.injEq]

/-- C8: for every 40-entry pulse-duration list whose classified-and-packed
bytes fail the checksum comparison, the decode pipeline returns the
`InvalidChecksum` error and no reading. -/
theorem invalid_checksum_on_mismatch (pull_up_lengths : List ℕ)
    (hlen : pull_up_lengths.length = 40)
    (hck : (bits_to_bytes (calculate_bits pull_up_lengths))[4]!
           ≠ calculate_checksum (bits_to_bytes (calculate_bits pull_up_lengths))) :
    decodePullUpLengths pull_up_lengths = Except.error DHT11Error.InvalidChecksum := by
  simp [decodePullUpLengths, hlen, hck]

/-- C8 witness: the pulse-duration list encoding the frame `[55, 2, 24, 8, 0]`
(computed checksum 89 ≠ 0) yields `InvalidChecksum`. -/
theorem invalid_checksum_on_mismatch_inst :
    decodePullUpLengths
        [10, 10, 28, 28, 10, 28, 28, 28,  10, 10, 10, 10, 10, 10, 28, 10,
         10, 10, 10, 28, 28, 10, 10, 10,  10, 10, 10, 10, 28, 10, 10, 10,
         10, 10, 10, 10, 10, 10, 10, 10]
      = Except.error DHT11Error.InvalidChecksum :=
  invalid_checksum_on_mismatch
    [10, 10, 28, 28, 10, 28, 28, 28,  10, 10, 10, 10, 10, 10, 28, 10,
     10, 10, 10, 28, 28, 10, 10, 10,  10, 10, 10, 10, 28, 10, 10, 10,
     10, 10, 10, 10, 10, 10, 10, 10] (by decide) (by decide)

/-- C9 counterexample: the busy-poll loop does not block for at most 200 ms
per read.  On a trace whose level changes at 100 ms and then stays constant,
the loop exits only at the sample taken at 350 ms — 200 ms after the last
level change and more than the claimed 200 ms bound after entry. -/
theorem collect_input_over_timeout_cex :
    collect_input [(Level.High, 100), (Level.High, 350)] 0 Level.Low
      = some ([Level.High, Level.High], 350) ∧
    TIMEOUT_DURATION < 350 := by
  decide

/-- C9 (amended): on every timed sample trace on which the busy-poll loop of
`collect_input` exits, it returns exactly the levels sampled so far (no
error, however little was collected), exiting at the first sample whose
clock value exceeds the in-effect `start_time` by more than the 200 ms
timeout — i.e. once the time since the last observed level change exceeds
200 ms; the total blocking time is 200 ms past the last level change, not at
most 200 ms per read. -/
theorem collect_input_returns_on_silence (samples : List (Level × ℕ))
    (ds : List Level) (te : ℕ)
    (h : collect_input samples 0 Level.Low = some (ds, te)) :
    ∃ k, k < samples.length ∧
      ds = (samples.take (k + 1)).map Prod.fst ∧
      te = (samples[k]!).2 ∧
      TIMEOUT_DURATION < (samples[k]!).2 - (start_times samples 0 Level.Low)[k]! ∧
      ∀ j, j < k → (samples[j]!).2 - (start_times samples 0 Level.Low)[j]! ≤ TIMEOUT_DURATION :=
  collect_input_spec samples 0 Level.Low ds te h

theorem collect_input_returns_on_silence_inst :
    ∃ k, k < ([(Level.High, 0), (Level.High, 201)] : List (Level × ℕ)).length ∧
      [Level.High, Level.High]
        = (([(Level.High, 0), (Level.High, 201)] : List (Level × ℕ)).take (k + 1)).map
            Prod.fst ∧
      201 = (([(Level.High, 0), (Level.High, 201)] : List (Level × ℕ))[k]!).2 ∧
      TIMEOUT_DURATION
        < (([(Level.High, 0), (Level.High, 201)] : List (Level × ℕ))[k]!).2
            - (start_times [(Level.High, 0), (Level.High, 201)] 0 Level.Low)[k]! ∧
      ∀ j, j < k →
        (([(Level.High, 0), (Level.High, 201)] : List (Level × ℕ))[j]!).2
            - (start_times [(Level.High, 0), (Level.High, 201)] 0 Level.Low)[j]!
          ≤ TIMEOUT_DURATION :=
  collect_input_returns_on_silence [(Level.High, 0), (Level.High, 201)]
    [Level.High, Level.High] 201 (by decide)

end DHT11
